import Mathlib

/-!  Shallow embedding of the Telegram group-history assistant bot (src/bot.py).

Texts are modelled as Lean `String`s, whose `data` field is the list of
unicode code points — matching Python `str` semantics (indexing, slicing and
`len` are code-point based).  Timestamps are modelled as natural numbers,
`datetime` ordering being abstracted to `≤` on `Nat`.  Fallible external
collaborators (the Cerebras completion request, the Telegraph publishing
call) are modelled as `Except`-valued inputs.  Each definition names the
Python function it embeds.  -/

/-!  ## Python string primitives  -/

/-- Python single-character `str.replace`: every occurrence of the character
`c` is replaced by the string `r`.  (For a one-character needle, `replace`
is exactly a per-character substitution.) -/
def pyReplaceChar (c : Char) (r : List Char) (s : List Char) : List Char :=
  s.flatMap fun x => if x = c then r else [x]

/-- Python `str.strip()`: drop whitespace from both ends. -/
def pyStrip (s : String) : String :=
  String.mk (((s.data.dropWhile Char.isWhitespace).reverse.dropWhile
    Char.isWhitespace).reverse)

/-- Python `str.isdigit()` (restricted to ASCII digits): non-empty and all
characters are digits. -/
def pyIsDigitS (s : String) : Bool :=
  !s.data.isEmpty && s.data.all Char.isDigit

/-- Python `int(...)` on a string of ASCII digits. -/
def strToNat (s : String) : Nat :=
  s.data.foldl (fun n c => n * 10 + (c.toNat - '0'.toNat)) 0

/-- Worker for `pySplitChars`, structurally recursive on a fuel argument so
that it reduces inside the kernel; the fuel is always instantiated with the
length of the input, which suffices since every recursive call strictly
shrinks the list. -/
def pySplitCharsF : Nat → Option Nat → List Char → List (List Char)
  | 0, _, _ => []
  | _ + 1, _, [] => []
  | fuel + 1, budget, c :: cs =>
    if c.isWhitespace then pySplitCharsF fuel budget cs
    else
      match budget with
      | some 0 => [c :: cs]
      | _ =>
        (c :: cs.takeWhile (fun x => !x.isWhitespace)) ::
          pySplitCharsF fuel (budget.map (· - 1))
            (cs.dropWhile (fun x => !x.isWhitespace))

/-- Python `str.split(maxsplit=·)` on a character list: split on runs of
whitespace, dropping empty tokens; once the split budget is exhausted the
remainder (after skipping the separating whitespace) is kept verbatim.
`none` means an unlimited budget (plain `str.split()`). -/
def pySplitChars (budget : Option Nat) (s : List Char) : List (List Char) :=
  pySplitCharsF s.length budget s

/-- Python `str.split(maxsplit=·)` on strings. -/
def pySplit (s : String) (budget : Option Nat) : List String :=
  (pySplitChars budget s.data).map String.mk

/-- Every token produced by `pySplitCharsF` is non-empty (each is emitted with
an explicit head character). -/
theorem pySplitCharsF_ne_nil :
    ∀ (fuel : Nat) (budget : Option Nat) (s t : List Char),
      t ∈ pySplitCharsF fuel budget s → t ≠ [] := by
  intro fuel
  induction fuel with
  | zero => intro budget s t ht; simp [pySplitCharsF] at ht
  | succ n ih =>
    intro budget s t ht
    cases s with
    | nil => simp [pySplitCharsF] at ht
    | cons c cs =>
      by_cases hw : c.isWhitespace
      · simp only [pySplitCharsF, hw, if_true] at ht
        exact ih budget cs t ht
      · rcases budget with _ | (_ | m)
        · simp only [pySplitCharsF, hw, Bool.false_eq_true, if_false,
            Option.map_none', List.mem_cons] at ht
          rcases ht with rfl | h2
          · simp
          · exact ih none _ t h2
        · simp only [pySplitCharsF, hw, Bool.false_eq_true, if_false,
            List.mem_singleton] at ht
          simp [ht]
        · simp only [pySplitCharsF, hw, Bool.false_eq_true, if_false,
            Option.map_some', List.mem_cons] at ht
          rcases ht with rfl | h2
          · simp
          · exact ih _ _ t h2

/-- Every token produced by `pySplit` is a non-empty string. -/
theorem pySplit_ne_empty (s : String) (budget : Option Nat) :
    ∀ t ∈ pySplit s budget, t ≠ "" := by
  intro t ht
  simp only [pySplit, pySplitChars, List.mem_map] at ht
  obtain ⟨l, hl, rfl⟩ := ht
  have := pySplitCharsF_ne_nil _ _ _ _ hl
  intro hcontra
  apply this
  have : (String.mk l).data = "".data := by rw [hcontra]
  simpa using this

/-- `startsWithL d s` tests whether `d` is an initial segment of `s`. -/
def startsWithL : List Char → List Char → Bool
  | [], _ => true
  | _ :: _, [] => false
  | d :: ds, c :: cs => d == c && startsWithL ds cs

/-- Locate the first occurrence of the pattern `d` in `s`, returning the text
before it and the text after it.  This is the search underlying Python's
`in` operator and `str.split(sep, 1)`. -/
def splitFirst (d : List Char) : List Char → Option (List Char × List Char)
  | [] => none
  | c :: cs =>
    if startsWithL d (c :: cs) then some ([], (c :: cs).drop d.length)
    else
      match splitFirst d cs with
      | some (pre, post) => some (c :: pre, post)
      | none => none

theorem startsWithL_decomp :
    ∀ {d s : List Char}, startsWithL d s = true → s = d ++ s.drop d.length := by
  intro d
  induction d with
  | nil => intro s _; simp
  | cons x ds ih =>
    intro s h
    cases s with
    | nil => simp [startsWithL] at h
    | cons c cs =>
      simp only [startsWithL, Bool.and_eq_true, beq_iff_eq] at h
      obtain ⟨rfl, h2⟩ := h
      have := ih h2
      simp only [List.length_cons, List.drop_succ_cons, List.cons_append,
        List.cons.injEq, true_and]
      exact this

theorem startsWithL_of_append (d t : List Char) :
    startsWithL d (d ++ t) = true := by
  induction d with
  | nil => simp [startsWithL]
  | cons x ds ih => simp [startsWithL, ih]

theorem splitFirst_decomp {d : List Char} :
    ∀ {s pre post : List Char},
      splitFirst d s = some (pre, post) → s = pre ++ d ++ post := by
  intro s
  induction s with
  | nil => intro pre post h; simp [splitFirst] at h
  | cons c cs ih =>
    intro pre post h
    by_cases hs : startsWithL d (c :: cs) = true
    · simp only [splitFirst, hs, if_true, Option.some.injEq, Prod.mk.injEq] at h
      obtain ⟨rfl, rfl⟩ := h
      simpa using startsWithL_decomp hs
    · simp only [splitFirst, hs, if_false, Bool.false_eq_true] at h
      rcases h2 : splitFirst d cs with _ | ⟨p, q⟩
      · rw [h2] at h; simp at h
      · rw [h2] at h
        simp only [Option.some.injEq, Prod.mk.injEq] at h
        obtain ⟨rfl, rfl⟩ := h
        have := ih h2
        simp [this]

theorem splitFirst_min {d : List Char} :
    ∀ {s pre post : List Char}, splitFirst d s = some (pre, post) →
      ∀ a b : List Char, s = a ++ d ++ b → pre.length ≤ a.length := by
  intro s
  induction s with
  | nil => intro pre post h; simp [splitFirst] at h
  | cons c cs ih =>
    intro pre post h a b hab
    by_cases hs : startsWithL d (c :: cs) = true
    · simp only [splitFirst, hs, if_true, Option.some.injEq, Prod.mk.injEq] at h
      obtain ⟨rfl, rfl⟩ := h
      simp
    · simp only [splitFirst, hs, if_false, Bool.false_eq_true] at h
      rcases h2 : splitFirst d cs with _ | ⟨p, q⟩
      · rw [h2] at h; simp at h
      · rw [h2] at h
        simp only [Option.some.injEq, Prod.mk.injEq] at h
        obtain ⟨rfl, rfl⟩ := h
        cases a with
        | nil =>
          exfalso
          apply hs
          simp only [List.nil_append] at hab
          rw [hab]
          exact startsWithL_of_append d b
        | cons a0 as =>
          simp only [List.cons_append, List.cons.injEq] at hab
          obtain ⟨rfl, hab2⟩ := hab
          have := ih h2 as b hab2
          simpa using this

theorem splitFirst_none_no_occ {d : List Char} (hd : d ≠ []) :
    ∀ {s : List Char}, splitFirst d s = none →
      ∀ a b : List Char, s ≠ a ++ d ++ b := by
  intro s
  induction s with
  | nil =>
    intro _ a b hab
    have : a = [] ∧ d ++ b = [] := by
      constructor
      · cases a with
        | nil => rfl
        | cons x xs => simp at hab
      · cases a with
        | nil => simpa using hab.symm
        | cons x xs => simp at hab
    rcases this with ⟨_, h2⟩
    exact hd (List.append_eq_nil.mp h2).1
  | cons c cs ih =>
    intro h a b hab
    by_cases hs : startsWithL d (c :: cs) = true
    · simp [splitFirst, hs] at h
    · simp only [splitFirst, hs, if_false, Bool.false_eq_true] at h
      rcases h2 : splitFirst d cs with _ | ⟨p, q⟩
      · cases a with
        | nil =>
          apply hs
          simp only [List.nil_append] at hab
          rw [hab]
          exact startsWithL_of_append d b
        | cons a0 as =>
          simp only [List.cons_append, List.cons.injEq] at hab
          exact ih h2 as b hab.2
      · rw [h2] at h; simp at h

theorem splitFirst_eq_of_first {d s pre post a b : List Char}
    (h : splitFirst d s = some (pre, post)) (hab : s = a ++ d ++ b)
    (hmin : ∀ a' b' : List Char, s = a' ++ d ++ b' → a.length ≤ a'.length) :
    pre = a ∧ post = b := by
  have hdec := splitFirst_decomp h
  have h1 : pre.length ≤ a.length := splitFirst_min h a b hab
  have h2 : a.length ≤ pre.length := hmin pre post hdec
  have hlen : pre.length = a.length := le_antisymm h1 h2
  have := hdec.symm.trans hab
  rw [List.append_assoc, List.append_assoc] at this
  obtain ⟨hpre, hrest⟩ := List.append_inj this hlen
  refine ⟨hpre, ?_⟩
  exact List.append_cancel_left hrest

/-!  ## Data model and History Store  -/

/-- A stored chat message (the `ChatMessage` row, restricted to the fields the
history pipeline reads; `date` is an abstract timestamp). -/
structure StoredMsg where
  first_name : String
  last_name : Option String
  text : String
  date : Nat
deriving DecidableEq

/-- One entry of the history window returned by `get_chat_history_from_db`. -/
structure HistEntry where
  sender_name : String
  text : String
  date : Nat
deriving DecidableEq

/-- Sender-name assembly inside `get_chat_history_from_db`: first name, plus
the last name when present. -/
def senderNameOf (m : StoredMsg) : String :=
  match m.last_name with
  | some ln => m.first_name ++ " " ++ ln
  | none => m.first_name

/-- The dictionary built for each fetched row. -/
def projEntry (m : StoredMsg) : HistEntry :=
  ⟨senderNameOf m, m.text, m.date⟩

/-- The SQL retrieval order `ORDER BY date DESC`. -/
def dateDescR (a b : StoredMsg) : Prop := b.date ≤ a.date

instance : DecidableRel dateDescR := fun a b => Nat.decLe b.date a.date

instance : IsTotal StoredMsg dateDescR :=
  ⟨fun a b => Nat.le_total b.date a.date⟩

instance : IsTrans StoredMsg dateDescR :=
  ⟨fun _ _ _ h1 h2 => le_trans h2 h1⟩

/-- `get_chat_history_from_db`: select this chat's messages ordered by date
descending, keep the first `limit` rows, project each row to a history entry,
and reverse into chronological (oldest-first) order.  A missing chat record
is the `msgs = []` case (the handler then receives an empty list). -/
def get_chat_history_from_db (msgs : List StoredMsg) (limit : Nat) :
    List HistEntry :=
  ((((List.insertionSort dateDescR msgs).take limit).map projEntry)).reverse

theorem get_chat_history_length (msgs : List StoredMsg) (limit : Nat) :
    (get_chat_history_from_db msgs limit).length = min limit msgs.length := by
  simp [get_chat_history_from_db,
    (List.perm_insertionSort dateDescR msgs).length_eq]

theorem get_chat_history_not_empty (msgs : List StoredMsg) (limit : Nat)
    (h1 : msgs ≠ []) (h2 : 0 < limit) :
    (get_chat_history_from_db msgs limit).isEmpty = false := by
  have hlen := get_chat_history_length msgs limit
  have hpos : 0 < msgs.length := List.length_pos.mpr h1
  rcases he : (get_chat_history_from_db msgs limit).isEmpty with _ | _
  · rfl
  · exfalso
    have := List.isEmpty_iff.mp he
    rw [this] at hlen
    simp at hlen
    omega

/-!  ## Completion Client (`call_cerebras_api`) and Answer Normalizer  -/

/-- Scan a list of marker strings in order; at the first marker that occurs in
the text, keep only the (stripped) text after the marker's first occurrence;
if no marker occurs, return the text unchanged.  This is the shape of both
the thinking-tag loop in `call_cerebras_api` (`split(tag, 1)[-1].strip()`)
and the `elif`-chain of final-answer markers in `handle_qwen_command`
(`split(marker, 1)[1].strip()`); for a separator that is present, Python's
two-way split makes `[-1]` and `[1]` the same element. -/
def scanMarkers : List String → String → String
  | [], ans => ans
  | m :: ms, ans =>
    match splitFirst m.data ans.data with
    | some (_, post) => pyStrip (String.mk post)
    | none => scanMarkers ms ans

/-- The sentinel closing tags checked by `call_cerebras_api`, in their fixed
priority order. -/
def thinking_tags : List String := ["</think>", "</reasoning>", "<|im_end|>"]

/-- The fixed apology returned when the completion request raises. -/
def apologyText : String :=
  "Извините, произошла ошибка при обработке вашего запроса сервисом ИИ."

/-- `call_cerebras_api`: the completion exchange is modelled by its outcome —
`.ok raw` is the extracted `choices[0].message.content`, `.error e` is any
exception raised inside the `try` block (transport, auth, malformed
response).  On success the response is stripped and the thinking-tag loop
runs; on failure the fixed apology is returned.  The `prompt` and
`is_qwen_command` arguments select the system prompt sent upstream, which
does not affect this post-processing. -/
def call_cerebras_api (prompt : String) (is_qwen_command : Bool)
    (outcome : Except String String) : String :=
  match outcome with
  | .ok raw => scanMarkers thinking_tags (pyStrip raw)
  | .error _ =>
    let _ := prompt
    let _ := is_qwen_command
    apologyText

/-- The ordered final-answer markers of `handle_qwen_command`'s `elif` chain
(the trailing bare `"###"` case included: its extra length check is always
true once `"###" in answer` holds). -/
def qwen_markers : List String :=
  ["Вывод:", "вывод:", "Ответ:", "ответ:", "### Ответ", "### Ответ:",
   "### Вывод", "### Вывод:", "### Финальный Ответ", "### Финальный Ответ:",
   "### Финальный Вывод", "### Финальный Вывод:", "### Final Answer",
   "### Final Answer:", "### Final Response", "### Final Response:",
   "Final Answer:", "Final Response:", "Итоговый ответ:", "Итоговый ответ",
   "Итог:", "итог:", "Решение:", "решение:", "Результат:", "результат:",
   "Заключение:", "заключение:", "Summary:", "Summary", "Ответ на вопрос:",
   "Ответ на вопрос", "###"]

/-- The answer post-processing of `handle_qwen_command`. -/
def normalize_answer (answer : String) : String :=
  scanMarkers qwen_markers answer

theorem scanMarkers_no_occ :
    ∀ (ms : List String) (ans : String),
      (∀ m ∈ ms, ∀ a b : List Char, ans.data ≠ a ++ m.data ++ b) →
      scanMarkers ms ans = ans := by
  intro ms
  induction ms with
  | nil => intro ans _; rfl
  | cons m ms ih =>
    intro ans h
    rcases h2 : splitFirst m.data ans.data with _ | ⟨pre, post⟩
    · simp only [scanMarkers, h2]
      exact ih ans fun m' hm' => h m' (List.mem_cons_of_mem m hm')
    · exact absurd (splitFirst_decomp h2)
        (h m (List.mem_cons_self m ms) pre post)

theorem scanMarkers_first :
    ∀ (ms₁ : List String) (m : String) (ms₂ : List String) (ans : String)
      (a b : List Char),
      m.data ≠ [] →
      (∀ m' ∈ ms₁, ∀ a' b' : List Char, ans.data ≠ a' ++ m'.data ++ b') →
      ans.data = a ++ m.data ++ b →
      (∀ a' b' : List Char, ans.data = a' ++ m.data ++ b' →
        a.length ≤ a'.length) →
      scanMarkers (ms₁ ++ m :: ms₂) ans = pyStrip (String.mk b) := by
  intro ms₁
  induction ms₁ with
  | nil =>
    intro m ms₂ ans a b hm _ hab hmin
    rcases h2 : splitFirst m.data ans.data with _ | ⟨pre, post⟩
    · exact absurd hab (splitFirst_none_no_occ hm h2 a b)
    · obtain ⟨_, rfl⟩ := splitFirst_eq_of_first h2 hab hmin
      simp [scanMarkers, h2]
  | cons m' ms₁ ih =>
    intro m ms₂ ans a b hm hprev hab hmin
    rcases h2 : splitFirst m'.data ans.data with _ | ⟨pre, post⟩
    · simp only [List.cons_append, scanMarkers, h2]
      exact ih m ms₂ ans a b hm
        (fun x hx => hprev x (List.mem_cons_of_mem m' hx)) hab hmin
    · exact absurd (splitFirst_decomp h2)
        (hprev m' (List.mem_cons_self m' ms₁) pre post)

/-!  ## Markup Safety Layer: `escape_markdown`  -/

/-- The fixed MarkdownV2 special-character set of `escape_markdown`
(`escape_chars` in the source; `\x7b`/`\x7d` are the braces). -/
def escape_chars : List Char :=
  ['_', '*', '[', ']', '(', ')', '~', '`', '>', '#', '+', '-', '=', '|',
   '\x7b', '\x7d', '.', '!']

/-- `escape_markdown`: first double every backslash, then prefix each special
character with a backslash, one `str.replace` pass per character. -/
def escape_markdown (text : String) : String :=
  String.mk (escape_chars.foldl (fun acc c => pyReplaceChar c ['\\', c] acc)
    (pyReplaceChar '\\' ['\\', '\\'] text.data))

/-- Modelled from the spec: per-character escaping in which every special
character appears backslash-prefixed exactly once and a pre-existing
backslash is itself escaped (no double escaping).  Used as the comparison
point for the claim about `escape_markdown`. -/
def escCharSpec (c : Char) : List Char :=
  if c = '\\' then ['\\', '\\']
  else if c ∈ escape_chars then ['\\', c]
  else [c]

/-- Modelled from the spec: the one-pass character map the claim describes. -/
def escape_markdown_spec (text : String) : String :=
  String.mk (text.data.flatMap escCharSpec)

/-- Inverse of the escaping: drop one backslash before every escaped
character.  `unescapeMd (escape_markdown s) = s` certifies that nothing got
double-escaped and nothing was left unescaped. -/
def unescapeMd : List Char → List Char
  | [] => []
  | [c] => [c]
  | c :: d :: rest =>
    if c = '\\' then d :: unescapeMd rest
    else c :: unescapeMd (d :: rest)

theorem unescapeMd_slash (d : Char) (rest : List Char) :
    unescapeMd ('\\' :: d :: rest) = d :: unescapeMd rest := by
  simp [unescapeMd]

theorem unescapeMd_cons_ne (c : Char) (rest : List Char) (h : c ≠ '\\') :
    unescapeMd (c :: rest) = c :: unescapeMd rest := by
  cases rest with
  | nil => rfl
  | cons d ds => simp [unescapeMd, h]

theorem pyReplaceChar_append (c : Char) (r x y : List Char) :
    pyReplaceChar c r (x ++ y) = pyReplaceChar c r x ++ pyReplaceChar c r y := by
  simp [pyReplaceChar]

theorem escFold_append (es : List Char) :
    ∀ x y : List Char,
      es.foldl (fun acc c => pyReplaceChar c ['\\', c] acc) (x ++ y) =
        es.foldl (fun acc c => pyReplaceChar c ['\\', c] acc) x ++
          es.foldl (fun acc c => pyReplaceChar c ['\\', c] acc) y := by
  induction es with
  | nil => intro x y; rfl
  | cons e es ih =>
    intro x y
    simp only [List.foldl_cons, pyReplaceChar_append]
    exact ih _ _

theorem pyReplaceChar_not_mem (c : Char) (r : List Char) :
    ∀ l : List Char, c ∉ l → pyReplaceChar c r l = l := by
  intro l
  induction l with
  | nil => intro _; rfl
  | cons x xs ih =>
    intro h
    have hx : x ≠ c := fun he => h (he ▸ List.mem_cons_self x xs)
    have h2 : c ∉ xs := fun hm => h (List.mem_cons_of_mem x hm)
    simp only [pyReplaceChar] at ih ⊢
    simp [hx, ih h2]

theorem escFold_skip (es : List Char) :
    ∀ l : List Char, (∀ e ∈ es, e ∉ l) →
      es.foldl (fun acc c => pyReplaceChar c ['\\', c] acc) l = l := by
  induction es with
  | nil => intro l _; rfl
  | cons e es ih =>
    intro l h
    simp only [List.foldl_cons]
    rw [pyReplaceChar_not_mem e _ l (h e (List.mem_cons_self e es))]
    exact ih l fun x hx => h x (List.mem_cons_of_mem e hx)

theorem escFold_single (es : List Char) :
    ∀ c : Char, '\\' ∉ es → es.Nodup → c ∈ es →
      es.foldl (fun acc c => pyReplaceChar c ['\\', c] acc) [c] = ['\\', c] := by
  induction es with
  | nil => intro c _ _ hc; simp at hc
  | cons e es ih =>
    intro c hnb hnd hc
    simp only [List.foldl_cons]
    by_cases hce : c = e
    · subst hce
      have hstep : pyReplaceChar c ['\\', c] [c] = ['\\', c] := by
        simp [pyReplaceChar]
      rw [hstep]
      apply escFold_skip
      intro x hx
      simp only [List.mem_cons, List.mem_singleton, List.not_mem_nil]
      rintro (rfl | (rfl | h))
      · exact hnb (List.mem_cons_of_mem _ hx)
      · exact (List.nodup_cons.mp hnd).1 hx
      · exact h.elim
    · have hstep : pyReplaceChar e ['\\', e] [c] = [c] := by
        apply pyReplaceChar_not_mem
        simp only [List.mem_singleton]
        exact fun he => hce he.symm
      rw [hstep]
      refine ih c (fun hm => hnb (List.mem_cons_of_mem _ hm))
        (List.nodup_cons.mp hnd).2 ?_
      rcases List.mem_cons.mp hc with rfl | h2
      · exact absurd rfl hce
      · exact h2

theorem escape_markdown_char (c : Char) :
    escape_chars.foldl (fun acc c => pyReplaceChar c ['\\', c] acc)
      (pyReplaceChar '\\' ['\\', '\\'] [c]) = escCharSpec c := by
  by_cases h1 : c = '\\'
  · subst h1
    have hstep : pyReplaceChar '\\' ['\\', '\\'] ['\\'] = ['\\', '\\'] := by
      simp [pyReplaceChar]
    rw [hstep]
    rw [escFold_skip escape_chars _ (by decide)]
    simp [escCharSpec]
  · have hb : pyReplaceChar '\\' ['\\', '\\'] [c] = [c] := by
      apply pyReplaceChar_not_mem
      simp only [List.mem_singleton]
      exact fun he => h1 he.symm
    rw [hb]
    by_cases h2 : c ∈ escape_chars
    · rw [escFold_single escape_chars c (by decide) (by decide) h2]
      simp [escCharSpec, h1, h2]
    · rw [escFold_skip escape_chars [c] (by
        intro e he
        simp only [List.mem_singleton]
        intro hec
        exact h2 (hec ▸ he))]
      simp [escCharSpec, h1, h2]

theorem escape_markdown_data (l : List Char) :
    escape_chars.foldl (fun acc c => pyReplaceChar c ['\\', c] acc)
      (pyReplaceChar '\\' ['\\', '\\'] l) = l.flatMap escCharSpec := by
  induction l with
  | nil => rfl
  | cons c cs ih =>
    have hsplit : (c :: cs : List Char) = [c] ++ cs := rfl
    rw [hsplit, pyReplaceChar_append, escFold_append,
      escape_markdown_char c, ih]
    simp

theorem escape_markdown_eq_spec (text : String) :
    escape_markdown text = escape_markdown_spec text := by
  unfold escape_markdown escape_markdown_spec
  rw [escape_markdown_data]

theorem unescapeMd_flatMap (l : List Char) :
    unescapeMd (l.flatMap escCharSpec) = l := by
  induction l with
  | nil => rfl
  | cons c cs ih =>
    rw [List.flatMap_cons]
    by_cases h1 : c = '\\'
    · subst h1
      have h0 : escCharSpec '\\' = ['\\', '\\'] := by
        simp [escCharSpec]
      rw [h0, List.cons_append, List.cons_append, List.nil_append,
        unescapeMd_slash, ih]
    · by_cases h2 : c ∈ escape_chars
      · have h0 : escCharSpec c = ['\\', c] := by
          simp [escCharSpec, h1, h2]
        rw [h0, List.cons_append, List.cons_append, List.nil_append,
          unescapeMd_slash, ih]
      · have h0 : escCharSpec c = [c] := by
          simp [escCharSpec, h1, h2]
        rw [h0, List.cons_append, List.nil_append,
          unescapeMd_cons_ne c _ h1, ih]

/-!  ## Markup Safety Layer: HTML conversion and overflow handling  -/

/-- Python `html.escape(s)` (quote=True): `&`, `<`, `>`, `"`, `'` become
entities, ampersands first. -/
def html_escape (s : List Char) : List Char :=
  pyReplaceChar '\x27' "&#x27;".data
    (pyReplaceChar '"' "&quot;".data
      (pyReplaceChar '>' "&gt;".data
        (pyReplaceChar '<' "&lt;".data
          (pyReplaceChar '&' "&amp;".data s))))

/-- `.` in a Python regex without `DOTALL` never matches a newline. -/
def noNewline (m : List Char) : Bool := !m.contains '\n'

/-- One `re.sub(d …(content)… d, …)` pass: repeatedly find the leftmost pair
of occurrences of the delimiter `d`, and when the enclosed content passes
the pattern's content test `ok` (newline-freedom for non-`DOTALL` patterns,
non-emptiness for `[^`+…]`-style content), replace the whole match by
`mk content` and continue after it; when the content test fails, the match
attempt at this position fails and the scan resumes at the closing
delimiter candidate. -/
def listSubst (d : List Char) (hd : d ≠ []) (ok : List Char → Bool)
    (mk : List Char → List Char) (s : List Char) : List Char :=
  match h1 : splitFirst d s with
  | none => s
  | some (pre, rest) =>
    match h2 : splitFirst d rest with
    | none => s
    | some (mid, rest2) =>
      if ok mid then pre ++ mk mid ++ listSubst d hd ok mk rest2
      else pre ++ d ++ mid ++ listSubst d hd ok mk (d ++ rest2)
termination_by s.length
decreasing_by
  · have e1 := splitFirst_decomp h1
    have e2 := splitFirst_decomp h2
    have hdl : 0 < d.length := List.length_pos.mpr hd
    rw [e1, e2]
    simp [List.length_append]
    omega
  · have e1 := splitFirst_decomp h1
    have e2 := splitFirst_decomp h2
    have hdl : 0 < d.length := List.length_pos.mpr hd
    rw [e1, e2]
    simp [List.length_append]
    omega

/-- `convert_telegram_markup_to_html`: escape HTML-sensitive characters, then
rewrite each Telegram-markup span to its HTML tag (code blocks first, then
bold/italic/strikethrough, inline code, spoiler), then newlines to
`<br>`. -/
def convert_telegram_markup_to_html (text : String) : String :=
  let s0 := html_escape text.data
  let s1 := listSubst "```".data (by decide) (fun _ => true)
      (fun m => "<pre><code>".data ++ m ++ "</code></pre>".data) s0
  let s2 := listSubst "**".data (by decide) noNewline
      (fun m => "<strong>".data ++ m ++ "</strong>".data) s1
  let s3 := listSubst "__".data (by decide) noNewline
      (fun m => "<em>".data ++ m ++ "</em>".data) s2
  let s4 := listSubst "~~".data (by decide) noNewline
      (fun m => "<s>".data ++ m ++ "</s>".data) s3
  let s5 := listSubst "`".data (by decide) (fun m => !m.isEmpty)
      (fun m => "<code>".data ++ m ++ "</code>".data) s4
  let s6 := listSubst "||".data (by decide) noNewline
      (fun m => "<em>[скрытый текст: ".data ++ m ++ "]</em>".data) s5
  String.mk (pyReplaceChar '\n' "<br>".data s6)

/-- Telegram parse modes used by the handlers. -/
inductive TgParseMode where
  | markdown
  | markdownV2
deriving DecidableEq

/-- A message handed to `message.reply`: its text and parse mode. -/
structure SentReply where
  text : String
  parse : Option TgParseMode
deriving DecidableEq

def TELEGRAM_MESSAGE_LIMIT : Nat := 4096

/-- The fixed preamble of the hosted-document link reply. -/
def longAnswerPrefix : String :=
  "Ответ слишком длинный для отправки в Telegram. Вы можете прочитать его по ссылке: "

/-- `send_long_message`: a text within the Telegram limit is replied inline
with the requested parse mode.  A longer text is converted to HTML and
published as a Telegraph page (`publish` models the
`create_account`/`create_page` exchange: `.ok url` is a successful
publication, `.error` any `TelegraphException` or other exception raised in
the `try` block — both `except` clauses send the same fallback); on success
only a short link message (no parse mode) is sent, on failure the text is
truncated to the limit (`text[:4096]`) and sent with the requested parse
mode. -/
def send_long_message (text : String) (parse_mode : Option TgParseMode)
    (publish : String → Except String String) : SentReply :=
  if text.length ≤ TELEGRAM_MESSAGE_LIMIT then
    ⟨text, parse_mode⟩
  else
    match publish (convert_telegram_markup_to_html text) with
    | .ok url => ⟨longAnswerPrefix ++ url, none⟩
    | .error _ => ⟨String.mk (text.data.take TELEGRAM_MESSAGE_LIMIT), parse_mode⟩

/-!  ## Command Orchestrators  -/

def DEFAULT_MESSAGE_COUNT : Nat := 100

/-- `/history` argument parsing: with at least one argument token that
`isdigit`, use its value, replacing it by the default when it is `≤ 0` or
`> 500`; otherwise keep the default. -/
def historyNumMessages (parts : List String) : Nat :=
  match parts with
  | _ :: p1 :: _ =>
    if pyIsDigitS p1 then
      let n := strToNat p1
      if n ≤ 0 ∨ 500 < n then DEFAULT_MESSAGE_COUNT else n
    else DEFAULT_MESSAGE_COUNT
  | _ => DEFAULT_MESSAGE_COUNT

/-- `/qwen` count parsing: a leading count is recognized only in the
three-part split (command, digit token, rest). -/
def qwenNumMessages (parts : List String) : Nat :=
  match parts with
  | [_, p1, _] =>
    if pyIsDigitS p1 then
      let n := strToNat p1
      if n ≤ 0 ∨ 500 < n then DEFAULT_MESSAGE_COUNT else n
    else DEFAULT_MESSAGE_COUNT
  | _ => DEFAULT_MESSAGE_COUNT

/-- `/qwen` question extraction: two parts — the single token is the whole
question; three parts — the trailing text, prefixed by the middle token
when that token is not a digit count. -/
def qwenQuestion (parts : List String) : String :=
  match parts with
  | [_, q] => q
  | [_, p1, p2] => if pyIsDigitS p1 then p2 else p1 ++ " " ++ p2
  | _ => ""

/-- `save_message_to_db` stores a reply iff its text is non-empty (empty
texts are skipped by the `if not message.text` guard). -/
def savesB (t : String) : Bool := !(t == "")

/-- One observable transport effect of a handler: a reply sent (with its
text, parse mode and whether it was then archived by
`save_message_to_db`), or the deletion of the transient "working"
message. -/
inductive Event where
  | sent (text : String) (parse : Option TgParseMode) (saved : Bool)
  | deleted
deriving DecidableEq

/-- The last reply sent during an invocation — its terminal reply. -/
def lastSentEvent (tr : List Event) : Option Event :=
  (tr.filter fun e => match e with
    | .sent _ _ _ => true
    | .deleted => false).getLast?

/-- The `"<sender> (<timestamp>): <text>"` history lines (the `strftime`
rendering of the abstract timestamp is its decimal form). -/
def format_history (h : List HistEntry) : String :=
  String.intercalate "\n"
    (h.map fun m => m.sender_name ++ " (" ++ toString m.date ++ "): " ++ m.text)

def histProcessingText (n : Nat) : String :=
  "Анализирую последние " ++ toString n ++
    " сообщений из сохраненной истории... Это может занять некоторое время."

def histNoHistoryText : String :=
  "В моей базе данных еще нет сохраненных сообщений из этого чата. Пожалуйста, подождите, пока я их соберу."

def historyPrompt (formatted_history : String) : String :=
  "Проанализируй следующие сообщения чата, которые идут в хронологическом порядке (сначала самые старые). " ++
  "Предоставь краткую и информативную сводку последних новостей или важных обсуждений. " ++
  "Сосредоточься на ключевых моментах, решениях или обновлениях. Избегай ненужных деталей и \x27воды\x27. " ++
  "Не упоминай, что ты суммируй чат, просто предоставь сводку напрямую на русском языке.\n\n" ++
  "Сообщения чата:\n" ++ formatted_history ++ "\n\n" ++
  "Выводи только финальный ответ, без своих рассуждений."

def qwenUsageHint1 : String :=
  "Пожалуйста, задайте вопрос после команды /qwen. Например: /qwen Что было решено по проекту?"

def qwenUsageHint2 : String :=
  "Пожалуйста, задайте вопрос. Например: /qwen Что было решено по проекту?"

def qwenProcessingText (n : Nat) : String :=
  "Ищу в последних " ++ toString n ++
    " сохраненных сообщениях ответ на ваш вопрос... Это может занять некоторое время."

def qwenNoHistoryText : String :=
  "В моей базе данных еще нет сохраненных сообщений из этого чата для ответа на ваш вопрос. Пожалуйста, подождите."

def qwenPrompt (formatted_history user_question : String) : String :=
  "Основываясь *только* на следующих сообщениях чата (в хронологическом порядке, сначала самые старые), " ++
  "пожалуйста, кратко и точно ответь на вопрос пользователя. " ++
  "Если информации в чате нет, четко укажи на это. Отвечай на русском языке.\n\n" ++
  "Сообщения чата:\n" ++ formatted_history ++ "\n\n" ++
  "Вопрос пользователя: " ++ user_question ++ "\n\n" ++
  "Выводи только финальный ответ, без своих рассуждений."

/-- `handle_history_command` as a trace of transport effects.  `store` is
this chat's archived messages, `apiOutcome` the completion exchange's
outcome, `publish` the Telegraph collaborator.  Non-exceptional control
flow of the source: reply with the working acknowledgment and archive it;
fetch the window; if empty, delete the acknowledgment and send (and
archive) the no-history reply; otherwise build the prompt, call the
Completion Client, delete the acknowledgment, send the summary through
`send_long_message` with the legacy `MARKDOWN` parse mode and archive the
sent reply. -/
def handle_history_command (msgText : String) (store : List StoredMsg)
    (apiOutcome : Except String String)
    (publish : String → Except String String) : List Event :=
  let parts := pySplit msgText none
  let num_messages := historyNumMessages parts
  let processing := histProcessingText num_messages
  let chat_history := get_chat_history_from_db store num_messages
  if chat_history.isEmpty then
    [Event.sent processing none (savesB processing), Event.deleted,
     Event.sent histNoHistoryText none (savesB histNoHistoryText)]
  else
    let formatted_history := format_history chat_history
    let summary :=
      call_cerebras_api (historyPrompt formatted_history) false apiOutcome
    let res := send_long_message summary (some TgParseMode.markdown) publish
    [Event.sent processing none (savesB processing), Event.deleted,
     Event.sent res.text res.parse (savesB res.text)]

/-- `handle_qwen_command` as a trace of transport effects.  `mdSendFails`
models the `try/except` around the MarkdownV2 send: when `true`, the rich
send raises (no message goes out) and the handler retries the same send
with no parse mode.  Control flow of the source: a lone `/qwen` gets the
usage hint and stops (not archived); an empty question gets the second
hint and stops (not archived); the working acknowledgment is sent (never
archived by this handler); an empty window deletes the acknowledgment and
sends the no-history reply (not archived); otherwise the Completion Client
is called, the answer normalized, the acknowledgment deleted, and the
answer sent via `send_long_message` and archived. -/
def handle_qwen_command (msgText : String) (store : List StoredMsg)
    (apiOutcome : Except String String)
    (publish : String → Except String String) (mdSendFails : Bool) :
    List Event :=
  let parts := pySplit msgText (some 2)
  if parts.length = 1 then
    [Event.sent qwenUsageHint1 none false]
  else
    let num_messages := qwenNumMessages parts
    let user_question := qwenQuestion parts
    if user_question = "" then
      [Event.sent qwenUsageHint2 none false]
    else
      let processing := qwenProcessingText num_messages
      let chat_history := get_chat_history_from_db store num_messages
      if chat_history.isEmpty then
        [Event.sent processing none false, Event.deleted,
         Event.sent qwenNoHistoryText none false]
      else
        let formatted_history := format_history chat_history
        let answer0 :=
          call_cerebras_api (qwenPrompt formatted_history user_question)
            true apiOutcome
        let answer := normalize_answer answer0
        let res :=
          if mdSendFails then send_long_message answer none publish
          else send_long_message answer (some TgParseMode.markdownV2) publish
        [Event.sent processing none false, Event.deleted,
         Event.sent res.text res.parse (savesB res.text)]

/-- The window size the `/history` handler queries with. -/
def historyNumOf (msgText : String) : Nat :=
  historyNumMessages (pySplit msgText none)

/-- The window the `/history` handler fetches. -/
def historyWindowOf (msgText : String) (store : List StoredMsg) :
    List HistEntry :=
  get_chat_history_from_db store (historyNumOf msgText)

/-- The summary text the `/history` handler obtains from the Completion
Client. -/
def historySummaryOf (msgText : String) (store : List StoredMsg)
    (apiOutcome : Except String String) : String :=
  call_cerebras_api (historyPrompt (format_history (historyWindowOf msgText store)))
    false apiOutcome

/-- The reply `send_long_message` produces for the `/history` summary. -/
def historySendOf (msgText : String) (store : List StoredMsg)
    (apiOutcome : Except String String)
    (publish : String → Except String String) : SentReply :=
  send_long_message (historySummaryOf msgText store apiOutcome)
    (some TgParseMode.markdown) publish

def qwenPartsOf (msgText : String) : List String := pySplit msgText (some 2)

def qwenNumOf (msgText : String) : Nat := qwenNumMessages (qwenPartsOf msgText)

def qwenQuestionOf (msgText : String) : String :=
  qwenQuestion (qwenPartsOf msgText)

def qwenWindowOf (msgText : String) (store : List StoredMsg) :
    List HistEntry :=
  get_chat_history_from_db store (qwenNumOf msgText)

/-- The normalized answer text the `/qwen` handler sends. -/
def qwenAnswerOf (msgText : String) (store : List StoredMsg)
    (apiOutcome : Except String String) : String :=
  normalize_answer
    (call_cerebras_api
      (qwenPrompt (format_history (qwenWindowOf msgText store))
        (qwenQuestionOf msgText))
      true apiOutcome)

/-- The reply `send_long_message` produces for the `/qwen` answer. -/
def qwenSendOf (msgText : String) (store : List StoredMsg)
    (apiOutcome : Except String String)
    (publish : String → Except String String) (mdSendFails : Bool) :
    SentReply :=
  if mdSendFails then
    send_long_message (qwenAnswerOf msgText store apiOutcome) none publish
  else
    send_long_message (qwenAnswerOf msgText store apiOutcome)
      (some TgParseMode.markdownV2) publish

theorem savesB_iff (t : String) : savesB t = true ↔ t ≠ "" := by
  simp [savesB]

theorem append_ne_empty_left (s r : String) (h : s ≠ "") : s ++ r ≠ "" := by
  intro he
  apply h
  have hd : (s ++ r).data = ([] : List Char) := by rw [he]
  rw [String.data_append] at hd
  have hs : s.data = [] := (List.append_eq_nil.mp hd).1
  cases s
  simp_all

theorem historyNumMessages_pos (parts : List String) :
    0 < historyNumMessages parts := by
  unfold historyNumMessages
  rcases parts with _ | ⟨p0, rest⟩
  · simp [DEFAULT_MESSAGE_COUNT]
  rcases rest with _ | ⟨p1, rest2⟩
  · simp [DEFAULT_MESSAGE_COUNT]
  dsimp only
  by_cases hd : pyIsDigitS p1
  · rw [if_pos hd]
    split
    · simp [DEFAULT_MESSAGE_COUNT]
    · next h => omega
  · rw [if_neg hd]
    simp [DEFAULT_MESSAGE_COUNT]

theorem qwenNumMessages_pos (parts : List String) :
    0 < qwenNumMessages parts := by
  unfold qwenNumMessages
  rcases parts with _ | ⟨p0, _ | ⟨p1, _ | ⟨p2, _ | ⟨p3, r⟩⟩⟩⟩
  · simp [DEFAULT_MESSAGE_COUNT]
  · simp [DEFAULT_MESSAGE_COUNT]
  · simp [DEFAULT_MESSAGE_COUNT]
  · dsimp only
    by_cases hd : pyIsDigitS p1
    · rw [if_pos hd]
      split
      · simp [DEFAULT_MESSAGE_COUNT]
      · next h => omega
    · rw [if_neg hd]
      simp [DEFAULT_MESSAGE_COUNT]
  · simp [DEFAULT_MESSAGE_COUNT]

theorem histProcessingText_ne_empty (n : Nat) : histProcessingText n ≠ "" := by
  apply append_ne_empty_left
  apply append_ne_empty_left
  decide

theorem handle_history_main (msgText : String) (store : List StoredMsg)
    (apiOutcome : Except String String)
    (publish : String → Except String String)
    (hw : (historyWindowOf msgText store).isEmpty = false) :
    handle_history_command msgText store apiOutcome publish =
      [Event.sent (histProcessingText (historyNumOf msgText)) none true,
       Event.deleted,
       Event.sent (historySendOf msgText store apiOutcome publish).text
         (historySendOf msgText store apiOutcome publish).parse
         (savesB (historySendOf msgText store apiOutcome publish).text)] := by
  unfold handle_history_command
  dsimp only
  have hne : (get_chat_history_from_db store
      (historyNumMessages (pySplit msgText none))).isEmpty = false := hw
  have hnot : ¬ ((get_chat_history_from_db store
      (historyNumMessages (pySplit msgText none))).isEmpty = true) := by
    rw [hne]
    simp
  rw [if_neg hnot]
  rw [(savesB_iff _).mpr (histProcessingText_ne_empty _)]
  rfl

theorem handle_history_empty (msgText : String) (store : List StoredMsg)
    (apiOutcome : Except String String)
    (publish : String → Except String String)
    (hs : (historyWindowOf msgText store).isEmpty = true) :
    handle_history_command msgText store apiOutcome publish =
      [Event.sent (histProcessingText (historyNumOf msgText)) none true,
       Event.deleted,
       Event.sent histNoHistoryText none true] := by
  unfold handle_history_command
  dsimp only
  have hs' : (get_chat_history_from_db store
      (historyNumMessages (pySplit msgText none))).isEmpty = true := hs
  rw [if_pos hs']
  rw [(savesB_iff _).mpr (histProcessingText_ne_empty _)]
  rw [show savesB histNoHistoryText = true from by decide]
  rfl

theorem handle_qwen_main (msgText : String) (store : List StoredMsg)
    (apiOutcome : Except String String)
    (publish : String → Except String String) (mdSendFails : Bool)
    (h1 : (qwenPartsOf msgText).length ≠ 1)
    (h2 : qwenQuestionOf msgText ≠ "")
    (hw : (qwenWindowOf msgText store).isEmpty = false) :
    handle_qwen_command msgText store apiOutcome publish mdSendFails =
      [Event.sent (qwenProcessingText (qwenNumOf msgText)) none false,
       Event.deleted,
       Event.sent (qwenSendOf msgText store apiOutcome publish mdSendFails).text
         (qwenSendOf msgText store apiOutcome publish mdSendFails).parse
         (savesB (qwenSendOf msgText store apiOutcome publish mdSendFails).text)]
    := by
  unfold handle_qwen_command
  dsimp only
  have h1' : (pySplit msgText (some 2)).length ≠ 1 := h1
  have h2' : qwenQuestion (pySplit msgText (some 2)) ≠ "" := h2
  rw [if_neg h1']
  rw [if_neg h2']
  have hne : (get_chat_history_from_db store
      (qwenNumMessages (pySplit msgText (some 2)))).isEmpty = false := hw
  have hnot : ¬ ((get_chat_history_from_db store
      (qwenNumMessages (pySplit msgText (some 2)))).isEmpty = true) := by
    rw [hne]
    simp
  rw [if_neg hnot]
  cases mdSendFails
  · rfl
  · rfl

theorem handle_qwen_usage (msgText : String) (store : List StoredMsg)
    (apiOutcome : Except String String)
    (publish : String → Except String String) (mdSendFails : Bool)
    (h1 : (qwenPartsOf msgText).length = 1) :
    handle_qwen_command msgText store apiOutcome publish mdSendFails =
      [Event.sent qwenUsageHint1 none false] := by
  unfold handle_qwen_command
  dsimp only
  have h1' : (pySplit msgText (some 2)).length = 1 := h1
  rw [if_pos h1']

theorem handle_qwen_empty (msgText : String) (store : List StoredMsg)
    (apiOutcome : Except String String)
    (publish : String → Except String String) (mdSendFails : Bool)
    (h1 : (qwenPartsOf msgText).length ≠ 1)
    (h2 : qwenQuestionOf msgText ≠ "")
    (hs : (qwenWindowOf msgText store).isEmpty = true) :
    handle_qwen_command msgText store apiOutcome publish mdSendFails =
      [Event.sent (qwenProcessingText (qwenNumOf msgText)) none false,
       Event.deleted,
       Event.sent qwenNoHistoryText none false] := by
  unfold handle_qwen_command
  dsimp only
  have h1' : (pySplit msgText (some 2)).length ≠ 1 := h1
  have h2' : qwenQuestion (pySplit msgText (some 2)) ≠ "" := h2
  rw [if_neg h1']
  rw [if_neg h2']
  have hs' : (get_chat_history_from_db store
      (qwenNumMessages (pySplit msgText (some 2)))).isEmpty = true := hs
  rw [if_pos hs']
  rfl

/-!  ## Claim theorems  -/

/-- C1: for every chat with at least one archived message and every positive
limit, `get_chat_history_from_db` returns exactly `min limit archivedCount`
entries, in non-decreasing timestamp order (oldest first), and those entries
are the most-recently-timestamped ones: the store's rows split (up to
permutation) into the chosen rows and the rest, every left-out row dating no
later than every chosen row. -/
theorem claim_C1_history_fetch (msgs : List StoredMsg) (limit : Nat)
    (hm : msgs ≠ []) (hl : 0 < limit) :
    (get_chat_history_from_db msgs limit).length = min limit msgs.length
  ∧ (get_chat_history_from_db msgs limit).Pairwise
      (fun a b => a.date ≤ b.date)
  ∧ ∃ chosen rest : List StoredMsg,
      msgs.Perm (chosen ++ rest)
      ∧ (∀ a ∈ chosen, ∀ b ∈ rest, b.date ≤ a.date)
      ∧ chosen.length = min limit msgs.length
      ∧ get_chat_history_from_db msgs limit = (chosen.map projEntry).reverse
    := by
  have hlen := get_chat_history_length msgs limit
  have hsorted := List.sorted_insertionSort dateDescR msgs
  have hperm := List.perm_insertionSort dateDescR msgs
  refine ⟨hlen, ?_, ?_⟩
  · have htake : (List.Pairwise dateDescR
        ((List.insertionSort dateDescR msgs).take limit)) :=
      List.Pairwise.sublist (List.take_sublist limit _) hsorted
    unfold get_chat_history_from_db
    rw [List.pairwise_reverse]
    exact List.pairwise_map.mpr htake
  · refine ⟨(List.insertionSort dateDescR msgs).take limit,
      (List.insertionSort dateDescR msgs).drop limit, ?_, ?_, ?_, rfl⟩
    · rw [List.take_append_drop]
      exact hperm.symm
    · have := List.pairwise_append.mp
        ((List.take_append_drop limit
          (List.insertionSort dateDescR msgs)).symm ▸ hsorted)
      exact this.2.2
    · rw [List.length_take, hperm.length_eq]

/-- Witness for C1 at a concrete two-message store and limit 5. -/
theorem claim_C1_history_fetch_witness :
    (get_chat_history_from_db
        [⟨"Alice", none, "hi", 2⟩, ⟨"Bob", some "B", "yo", 1⟩] 5).length =
      min 5 [(⟨"Alice", none, "hi", 2⟩ : StoredMsg),
             ⟨"Bob", some "B", "yo", 1⟩].length
  ∧ (get_chat_history_from_db
        [⟨"Alice", none, "hi", 2⟩, ⟨"Bob", some "B", "yo", 1⟩] 5).Pairwise
      (fun a b => a.date ≤ b.date)
  ∧ ∃ chosen rest : List StoredMsg,
      [(⟨"Alice", none, "hi", 2⟩ : StoredMsg),
       ⟨"Bob", some "B", "yo", 1⟩].Perm (chosen ++ rest)
      ∧ (∀ a ∈ chosen, ∀ b ∈ rest, b.date ≤ a.date)
      ∧ chosen.length =
          min 5 [(⟨"Alice", none, "hi", 2⟩ : StoredMsg),
                 ⟨"Bob", some "B", "yo", 1⟩].length
      ∧ get_chat_history_from_db
          [⟨"Alice", none, "hi", 2⟩, ⟨"Bob", some "B", "yo", 1⟩] 5 =
          (chosen.map projEntry).reverse :=
  claim_C1_history_fetch
    [⟨"Alice", none, "hi", 2⟩, ⟨"Bob", some "B", "yo", 1⟩] 5
    (by decide) (by decide)

/-- C2: `send_long_message` sends a text of at most 4096 characters inline as
a single reply with the requested parse mode; a longer text is instead
published (HTML conversion of the text) as a hosted document, only a short
message carrying the document's link being sent; if publishing raises, the
fallback sends exactly the first 4096 characters with the requested parse
mode.  A 4096-character text is sent inline, a 4097-character text takes the
overflow path (link on success, 4096-character truncation on failure). -/
theorem claim_C2_send_long_message :
    (∀ (text : String) (pm : Option TgParseMode)
        (publish : String → Except String String),
        text.length ≤ 4096 →
        send_long_message text pm publish = ⟨text, pm⟩)
  ∧ (∀ (text : String) (pm : Option TgParseMode)
        (publish : String → Except String String) (url : String),
        4096 < text.length →
        publish (convert_telegram_markup_to_html text) = .ok url →
        send_long_message text pm publish = ⟨longAnswerPrefix ++ url, none⟩)
  ∧ (∀ (text : String) (pm : Option TgParseMode)
        (publish : String → Except String String) (err : String),
        4096 < text.length →
        publish (convert_telegram_markup_to_html text) = .error err →
        send_long_message text pm publish =
          ⟨String.mk (text.data.take 4096), pm⟩)
  ∧ (∀ (pm : Option TgParseMode) (publish : String → Except String String),
        send_long_message (String.mk (List.replicate 4096 'a')) pm publish =
          ⟨String.mk (List.replicate 4096 'a'), pm⟩)
  ∧ (∀ (pm : Option TgParseMode) (err : String),
        send_long_message (String.mk (List.replicate 4097 'a')) pm
          (fun _ => .error err) =
          ⟨String.mk (List.replicate 4096 'a'), pm⟩)
  ∧ (∀ (pm : Option TgParseMode) (url : String),
        send_long_message (String.mk (List.replicate 4097 'a')) pm
          (fun _ => .ok url) = ⟨longAnswerPrefix ++ url, none⟩) := by
  have hshort : ∀ (text : String) (pm : Option TgParseMode)
      (publish : String → Except String String),
      text.length ≤ 4096 →
      send_long_message text pm publish = ⟨text, pm⟩ := by
    intro text pm publish h
    unfold send_long_message
    rw [if_pos (show text.length ≤ TELEGRAM_MESSAGE_LIMIT from h)]
  have hlong : ∀ (text : String), 4096 < text.length →
      ¬ (text.length ≤ TELEGRAM_MESSAGE_LIMIT) := by
    intro text h
    unfold TELEGRAM_MESSAGE_LIMIT
    omega
  have hok : ∀ (text : String) (pm : Option TgParseMode)
      (publish : String → Except String String) (url : String),
      4096 < text.length →
      publish (convert_telegram_markup_to_html text) = .ok url →
      send_long_message text pm publish = ⟨longAnswerPrefix ++ url, none⟩ := by
    intro text pm publish url h hp
    unfold send_long_message
    rw [if_neg (hlong text h), hp]
  have herr : ∀ (text : String) (pm : Option TgParseMode)
      (publish : String → Except String String) (err : String),
      4096 < text.length →
      publish (convert_telegram_markup_to_html text) = .error err →
      send_long_message text pm publish =
        ⟨String.mk (text.data.take 4096), pm⟩ := by
    intro text pm publish err h hp
    unfold send_long_message
    rw [if_neg (hlong text h), hp]
    rfl
  have hlen96 : (String.mk (List.replicate 4096 'a')).length = 4096 := by
    show (List.replicate 4096 'a').length = 4096
    rw [List.length_replicate]
  have hlen97 : (String.mk (List.replicate 4097 'a')).length = 4097 := by
    show (List.replicate 4097 'a').length = 4097
    rw [List.length_replicate]
  refine ⟨hshort, hok, herr, ?_, ?_, ?_⟩
  · intro pm publish
    exact hshort _ pm publish (by rw [hlen96])
  · intro pm err
    have htake : String.mk ((List.replicate 4097 'a').take 4096) =
        String.mk (List.replicate 4096 'a') := by
      rw [List.take_replicate]
      norm_num
    have := herr (String.mk (List.replicate 4097 'a')) pm
      (fun _ => .error err) err (by rw [hlen97]; omega) rfl
    rw [this]
    show (⟨String.mk ((List.replicate 4097 'a').take 4096), pm⟩ : SentReply) =
      ⟨String.mk (List.replicate 4096 'a'), pm⟩
    rw [htake]
  · intro pm url
    exact hok (String.mk (List.replicate 4097 'a')) pm
      (fun _ => .ok url) url (by rw [hlen97]; omega) rfl

/-- Witness for C2: a 4097-character text with a failing publisher is
truncated to its first 4096 characters. -/
theorem claim_C2_send_long_message_witness :
    send_long_message (String.mk (List.replicate 4097 'a'))
      (some TgParseMode.markdown) (fun _ => .error "down") =
      ⟨String.mk ((List.replicate 4097 'a').take 4096),
       some TgParseMode.markdown⟩ := by
  refine claim_C2_send_long_message.2.2.1 _ _ _ "down" ?_ rfl
  show 4096 < (List.replicate 4097 'a').length
  rw [List.length_replicate]
  omega

/-- C3: on a successful completion, `call_cerebras_api` checks the sentinel
tags `"</think>"`, `"</reasoning>"`, `"<|im_end|>"` in that priority order;
at the first tag (in that order) occurring in the trimmed text it discards
everything up to and including the tag's first occurrence and returns the
trimmed trailing text; when no tag occurs the trimmed text is returned
unchanged.  In particular `"...reasoning...</think>Final text"` yields
`"Final text"`. -/
theorem claim_C3_thinking_tags :
    (∀ (prompt raw : String) (q : Bool),
       (∀ t ∈ thinking_tags, ∀ a b : List Char,
          (pyStrip raw).data ≠ a ++ t.data ++ b) →
       call_cerebras_api prompt q (.ok raw) = pyStrip raw)
  ∧ (∀ (prompt raw : String) (q : Bool) (a b : List Char),
       (pyStrip raw).data = a ++ "</think>".data ++ b →
       (∀ a' b' : List Char,
          (pyStrip raw).data = a' ++ "</think>".data ++ b' →
          a.length ≤ a'.length) →
       call_cerebras_api prompt q (.ok raw) = pyStrip (String.mk b))
  ∧ (∀ (prompt raw : String) (q : Bool) (a b : List Char),
       (∀ a' b' : List Char,
          (pyStrip raw).data ≠ a' ++ "</think>".data ++ b') →
       (pyStrip raw).data = a ++ "</reasoning>".data ++ b →
       (∀ a' b' : List Char,
          (pyStrip raw).data = a' ++ "</reasoning>".data ++ b' →
          a.length ≤ a'.length) →
       call_cerebras_api prompt q (.ok raw) = pyStrip (String.mk b))
  ∧ (∀ (prompt raw : String) (q : Bool) (a b : List Char),
       (∀ a' b' : List Char,
          (pyStrip raw).data ≠ a' ++ "</think>".data ++ b') →
       (∀ a' b' : List Char,
          (pyStrip raw).data ≠ a' ++ "</reasoning>".data ++ b') →
       (pyStrip raw).data = a ++ "<|im_end|>".data ++ b →
       (∀ a' b' : List Char,
          (pyStrip raw).data = a' ++ "<|im_end|>".data ++ b' →
          a.length ≤ a'.length) →
       call_cerebras_api prompt q (.ok raw) = pyStrip (String.mk b))
  ∧ call_cerebras_api "" false (.ok "...reasoning...</think>Final text") =
      "Final text" := by
  refine ⟨?_, ?_, ?_, ?_, by decide⟩
  · intro prompt raw q h
    exact scanMarkers_no_occ thinking_tags (pyStrip raw) h
  · intro prompt raw q a b hab hmin
    exact scanMarkers_first [] "</think>" ["</reasoning>", "<|im_end|>"]
      (pyStrip raw) a b (by decide) (by simp) hab hmin
  · intro prompt raw q a b h1 hab hmin
    refine scanMarkers_first ["</think>"] "</reasoning>" ["<|im_end|>"]
      (pyStrip raw) _ _ (by decide) ?_ hab hmin
    intro m' hm' a' b'
    rw [List.mem_singleton.mp hm']
    exact h1 a' b'
  · intro prompt raw q a b h1 h2 hab hmin
    refine scanMarkers_first ["</think>", "</reasoning>"] "<|im_end|>" []
      (pyStrip raw) _ _ (by decide) ?_ hab hmin
    intro m' hm' a' b'
    rcases List.mem_cons.mp hm' with rfl | hm2
    · exact h1 a' b'
    · rw [List.mem_singleton.mp hm2]
      exact h2 a' b'

/-- Witness for C3 at `"x</think>y"`: the text after the first `"</think>"`
is returned. -/
theorem claim_C3_thinking_tags_witness :
    call_cerebras_api "" false (.ok "x</think>y") = "y" := by
  have h := claim_C3_thinking_tags.2.1 "" "x</think>y" false ['x'] ['y']
    (by decide)
    (fun a' b' hd =>
      @splitFirst_min "</think>".data (pyStrip "x</think>y").data ['x'] ['y']
        (by decide) a' b' hd)
  rw [h]
  decide

/-- C4: the answer normalizer of the ask pipeline scans the fixed ordered
marker list; for the first marker in list order (not text position) that
occurs in the answer it keeps only the trimmed text after that marker's
first occurrence; when no marker occurs the answer is unchanged.  In
particular `"### Итог: 42"` normalizes to `"42"` (the marker `"Итог:"`
precedes `"###"` in the list even though `"###"` occurs earlier in the
text). -/
theorem claim_C4_answer_normalizer :
    (∀ ans : String,
       (∀ m ∈ qwen_markers, ∀ a b : List Char, ans.data ≠ a ++ m.data ++ b) →
       normalize_answer ans = ans)
  ∧ (∀ (ms₁ : List String) (m : String) (ms₂ : List String) (ans : String)
       (a b : List Char),
       qwen_markers = ms₁ ++ m :: ms₂ →
       (∀ m' ∈ ms₁, ∀ a' b' : List Char, ans.data ≠ a' ++ m'.data ++ b') →
       ans.data = a ++ m.data ++ b →
       (∀ a' b' : List Char, ans.data = a' ++ m.data ++ b' →
          a.length ≤ a'.length) →
       normalize_answer ans = pyStrip (String.mk b))
  ∧ normalize_answer "### Итог: 42" = "42" := by
  refine ⟨?_, ?_, by decide⟩
  · intro ans h
    exact scanMarkers_no_occ qwen_markers ans h
  · intro ms₁ m ms₂ ans a b hsplit hprev hab hmin
    have hm : m ∈ qwen_markers := by
      rw [hsplit]
      exact List.mem_append_right ms₁ (List.mem_cons_self m ms₂)
    have hmne : m.data ≠ [] := by
      revert hm
      have : ∀ x ∈ qwen_markers, x.data ≠ [] := by decide
      exact this m
    unfold normalize_answer
    rw [hsplit]
    exact scanMarkers_first ms₁ m ms₂ ans a b hmne hprev hab hmin

/-- Witness for C4: an answer containing no marker is returned unchanged. -/
theorem claim_C4_answer_normalizer_witness :
    normalize_answer "привет" = "привет" := by
  apply claim_C4_answer_normalizer.1
  intro m hm a b heq
  fin_cases hm <;>
    exact splitFirst_none_no_occ (by decide) (by decide) a b heq

theorem lastSentEvent_three (t1 : String) (p1 : Option TgParseMode) (s1 : Bool)
    (t2 : String) (p2 : Option TgParseMode) (s2 : Bool) :
    lastSentEvent [Event.sent t1 p1 s1, Event.deleted, Event.sent t2 p2 s2] =
      some (Event.sent t2 p2 s2) := rfl

/-- The property C5 asserts of an invocation trace: its terminal reply was
archived. -/
def terminalArchived (tr : List Event) : Prop :=
  ∀ (t : String) (pm : Option TgParseMode) (sv : Bool),
    lastSentEvent tr = some (Event.sent t pm sv) → sv = true

/-- C5 counterexample: a bare `/qwen` invocation ends in the usage-hint
reply, which `handle_qwen_command` never archives — even with archived
messages present and every collaborator healthy. -/
theorem claim_C5_counterexample :
    ¬ terminalArchived (handle_qwen_command "/qwen" [⟨"Alice", none, "hi", 1⟩]
        (.ok "ok") (fun _ => .ok "url") false) := by
  intro h
  have hfalse := h qwenUsageHint1 none false (by decide)
  exact Bool.false_ne_true hfalse

/-- C5 amended: the summarize orchestrator archives its terminal reply on
every path (a reply is stored exactly when its text is non-empty); the ask
orchestrator archives its terminal reply only on the answer path, while its
usage-hint reply and its empty-history reply are sent unarchived. -/
theorem claim_C5_amended :
    (∀ (msgText : String) (store : List StoredMsg)
        (o : Except String String) (p : String → Except String String)
        (t : String) (pm : Option TgParseMode) (sv : Bool),
        lastSentEvent (handle_history_command msgText store o p) =
          some (Event.sent t pm sv) → sv = savesB t)
  ∧ (∀ (msgText : String) (store : List StoredMsg)
        (o : Except String String) (p : String → Except String String)
        (b : Bool),
        (qwenPartsOf msgText).length ≠ 1 → qwenQuestionOf msgText ≠ "" →
        (qwenWindowOf msgText store).isEmpty = false →
        ∀ (t : String) (pm : Option TgParseMode) (sv : Bool),
        lastSentEvent (handle_qwen_command msgText store o p b) =
          some (Event.sent t pm sv) → sv = savesB t)
  ∧ (∀ (msgText : String) (store : List StoredMsg)
        (o : Except String String) (p : String → Except String String)
        (b : Bool),
        (qwenPartsOf msgText).length = 1 →
        handle_qwen_command msgText store o p b =
          [Event.sent qwenUsageHint1 none false])
  ∧ (∀ (msgText : String) (store : List StoredMsg)
        (o : Except String String) (p : String → Except String String)
        (b : Bool),
        (qwenPartsOf msgText).length ≠ 1 → qwenQuestionOf msgText ≠ "" →
        (qwenWindowOf msgText store).isEmpty = true →
        lastSentEvent (handle_qwen_command msgText store o p b) =
          some (Event.sent qwenNoHistoryText none false)) := by
  refine ⟨?_, ?_, ?_, ?_⟩
  · intro msgText store o p t pm sv h
    rcases hw : (historyWindowOf msgText store).isEmpty with _ | _
    · rw [handle_history_main msgText store o p hw,
        lastSentEvent_three] at h
      simp only [Option.some.injEq, Event.sent.injEq] at h
      obtain ⟨ht, _, hsv⟩ := h
      rw [← ht]
      exact hsv.symm
    · rw [handle_history_empty msgText store o p hw,
        lastSentEvent_three] at h
      simp only [Option.some.injEq, Event.sent.injEq] at h
      obtain ⟨ht, _, hsv⟩ := h
      rw [← ht, show savesB histNoHistoryText = true from by decide]
      exact hsv.symm
  · intro msgText store o p b h1 h2 hw t pm sv h
    rw [handle_qwen_main msgText store o p b h1 h2 hw,
      lastSentEvent_three] at h
    simp only [Option.some.injEq, Event.sent.injEq] at h
    obtain ⟨ht, _, hsv⟩ := h
    rw [← ht]
    exact hsv.symm
  · intro msgText store o p b h1
    exact handle_qwen_usage msgText store o p b h1
  · intro msgText store o p b h1 h2 hw
    rw [handle_qwen_empty msgText store o p b h1 h2 hw,
      lastSentEvent_three]

/-- Witness for the amended C5: a bare `/qwen` produces exactly the
unarchived usage-hint trace. -/
theorem claim_C5_amended_witness :
    handle_qwen_command "/qwen" [] (.ok "x") (fun _ => .ok "u") false =
      [Event.sent qwenUsageHint1 none false] :=
  claim_C5_amended.2.2.1 "/qwen" [] (.ok "x") (fun _ => .ok "u") false
    (by decide)

/-- C6 counterexample: `escape_markdown` is never invoked by the summarize
pipeline — on a one-message store the first-attempt send carries the raw
summary `"Hello. World"` verbatim (with the legacy Markdown parse mode),
while strict escaping would have produced a different string, so the sent
text is not the escaped text. -/
theorem claim_C6_counterexample :
    lastSentEvent (handle_history_command "/history" [⟨"Alice", none, "hi", 1⟩]
        (.ok "Hello. World") (fun _ => .error "")) =
      some (Event.sent "Hello. World" (some TgParseMode.markdown) true)
  ∧ escape_markdown "Hello. World" ≠ "Hello. World" :=
  ⟨by decide, by decide⟩

/-- C6 amended: `escape_markdown` exists (strict backslash-escaping of the
fixed special-character set) but neither pipeline invokes it: the summarize
first-attempt send passes the Completion Client's summary unchanged (with
the legacy Markdown parse mode, not MarkdownV2), and the ask pipeline sends
the normalized answer unchanged. -/
theorem claim_C6_amended :
    (∀ (msgText : String) (store : List StoredMsg)
        (o : Except String String) (p : String → Except String String),
        (historyWindowOf msgText store).isEmpty = false →
        (historySummaryOf msgText store o).length ≤ 4096 →
        lastSentEvent (handle_history_command msgText store o p) =
          some (Event.sent (historySummaryOf msgText store o)
            (some TgParseMode.markdown)
            (savesB (historySummaryOf msgText store o))))
  ∧ (∀ (msgText : String) (store : List StoredMsg)
        (o : Except String String) (p : String → Except String String),
        (qwenPartsOf msgText).length ≠ 1 → qwenQuestionOf msgText ≠ "" →
        (qwenWindowOf msgText store).isEmpty = false →
        (qwenAnswerOf msgText store o).length ≤ 4096 →
        lastSentEvent (handle_qwen_command msgText store o p false) =
          some (Event.sent (qwenAnswerOf msgText store o)
            (some TgParseMode.markdownV2)
            (savesB (qwenAnswerOf msgText store o)))) := by
  constructor
  · intro msgText store o p hw hlen
    rw [handle_history_main msgText store o p hw, lastSentEvent_three]
    have hsend : historySendOf msgText store o p =
        ⟨historySummaryOf msgText store o, some TgParseMode.markdown⟩ := by
      unfold historySendOf send_long_message
      rw [if_pos (show (historySummaryOf msgText store o).length ≤
        TELEGRAM_MESSAGE_LIMIT from hlen)]
    rw [hsend]
  · intro msgText store o p h1 h2 hw hlen
    rw [handle_qwen_main msgText store o p false h1 h2 hw,
      lastSentEvent_three]
    have hsend : qwenSendOf msgText store o p false =
        ⟨qwenAnswerOf msgText store o, some TgParseMode.markdownV2⟩ := by
      unfold qwenSendOf
      rw [if_neg (by simp : ¬ ((false : Bool) = true))]
      unfold send_long_message
      rw [if_pos (show (qwenAnswerOf msgText store o).length ≤
        TELEGRAM_MESSAGE_LIMIT from hlen)]
    rw [hsend]

/-- Witness for the amended C6 on a one-message store: the terminal reply is
exactly the unescaped summary. -/
theorem claim_C6_amended_witness :
    lastSentEvent (handle_history_command "/history" [⟨"Alice", none, "hi", 1⟩]
        (.ok "ok") (fun _ => .error "")) =
      some (Event.sent
        (historySummaryOf "/history" [⟨"Alice", none, "hi", 1⟩] (.ok "ok"))
        (some TgParseMode.markdown)
        (savesB (historySummaryOf "/history" [⟨"Alice", none, "hi", 1⟩]
          (.ok "ok")))) :=
  claim_C6_amended.1 "/history" [⟨"Alice", none, "hi", 1⟩] (.ok "ok")
    (fun _ => .error "") (by decide) (by decide)

/-- C7: any exception inside the completion request makes
`call_cerebras_api` return the fixed apology string instead of propagating;
both orchestrators then treat that string as a normal answer — on the main
path it is sent as the terminal reply and archived like any other
answer. -/
theorem claim_C7_api_failure :
    (∀ (prompt e : String) (q : Bool),
        call_cerebras_api prompt q (.error e) = apologyText)
  ∧ (∀ (msgText : String) (store : List StoredMsg)
        (p : String → Except String String) (e : String),
        (historyWindowOf msgText store).isEmpty = false →
        lastSentEvent (handle_history_command msgText store (.error e) p) =
          some (Event.sent apologyText (some TgParseMode.markdown) true))
  ∧ (∀ (msgText : String) (store : List StoredMsg)
        (p : String → Except String String) (e : String) (b : Bool),
        (qwenPartsOf msgText).length ≠ 1 → qwenQuestionOf msgText ≠ "" →
        (qwenWindowOf msgText store).isEmpty = false →
        lastSentEvent (handle_qwen_command msgText store (.error e) p b) =
          some (Event.sent apologyText
            (if b then none else some TgParseMode.markdownV2) true)) := by
  refine ⟨fun prompt e q => rfl, ?_, ?_⟩
  · intro msgText store p e hw
    rw [handle_history_main msgText store (.error e) p hw, lastSentEvent_three]
    have hsum : historySummaryOf msgText store (.error e) = apologyText := rfl
    have hsend : historySendOf msgText store (.error e) p =
        ⟨apologyText, some TgParseMode.markdown⟩ := by
      unfold historySendOf send_long_message
      rw [hsum]
      rw [if_pos (by decide : apologyText.length ≤ TELEGRAM_MESSAGE_LIMIT)]
    rw [hsend]
    rw [show savesB apologyText = true from by decide]
  · intro msgText store p e b h1 h2 hw
    have hans : qwenAnswerOf msgText store (.error e) = apologyText := by
      show normalize_answer apologyText = apologyText
      decide
    have hsend : qwenSendOf msgText store (.error e) p b =
        ⟨apologyText, if b then none else some TgParseMode.markdownV2⟩ := by
      unfold qwenSendOf
      rw [hans]
      cases b
      · simp only [Bool.false_eq_true, if_false]
        unfold send_long_message
        rw [if_pos (by decide : apologyText.length ≤ TELEGRAM_MESSAGE_LIMIT)]
      · simp only [if_true]
        unfold send_long_message
        rw [if_pos (by decide : apologyText.length ≤ TELEGRAM_MESSAGE_LIMIT)]
    rw [handle_qwen_main msgText store (.error e) p b h1 h2 hw,
      lastSentEvent_three, hsend]
    rw [show savesB apologyText = true from by decide]

/-- Witness for C7: a failing completion on a one-message store ends with
the archived apology reply. -/
theorem claim_C7_api_failure_witness :
    lastSentEvent (handle_history_command "/history" [⟨"Alice", none, "hi", 1⟩]
        (.error "boom") (fun _ => .ok "u")) =
      some (Event.sent apologyText (some TgParseMode.markdown) true) :=
  claim_C7_api_failure.2.1 "/history" [⟨"Alice", none, "hi", 1⟩]
    (fun _ => .ok "u") "boom" (by decide)

/-- C8: a user-supplied count token whose value is ≤ 0 or > 500 is replaced
by exactly 100 in both orchestrators (for `/qwen`, the count position is the
middle token of the three-part split), and this is the window size the
history store is then queried with. -/
theorem claim_C8_count_clamp :
    (∀ (msgText cmd d : String) (rest : List String),
        pySplit msgText none = cmd :: d :: rest →
        pyIsDigitS d = true →
        (strToNat d ≤ 0 ∨ 500 < strToNat d) →
        historyNumOf msgText = 100)
  ∧ (∀ (msgText cmd d q : String),
        pySplit msgText (some 2) = [cmd, d, q] →
        pyIsDigitS d = true →
        (strToNat d ≤ 0 ∨ 500 < strToNat d) →
        qwenNumOf msgText = 100) := by
  constructor
  · intro msgText cmd d rest hp hd hn
    unfold historyNumOf
    rw [hp]
    unfold historyNumMessages
    dsimp only
    rw [if_pos hd, if_pos hn]
    rfl
  · intro msgText cmd d q hp hd hn
    unfold qwenNumOf qwenPartsOf
    rw [hp]
    unfold qwenNumMessages
    dsimp only
    rw [if_pos hd, if_pos hn]
    rfl

/-- Witness for C8: `/history 501` and `/qwen 0 hi` both fall back to
100. -/
theorem claim_C8_count_clamp_witness :
    historyNumOf "/history 501" = 100 ∧ qwenNumOf "/qwen 0 hi" = 100 :=
  ⟨claim_C8_count_clamp.1 "/history 501" "/history" "501" []
      (by decide) (by decide) (by decide),
   claim_C8_count_clamp.2 "/qwen 0 hi" "/qwen" "0" "hi"
      (by decide) (by decide) (by decide)⟩

/-- C9: `escape_markdown` (backslashes doubled first, then one
backslash-prefixing pass per special character) equals the spec's
one-pass character map, in which every special character of the fixed set
appears backslash-prefixed exactly once and pre-existing backslashes are
escaped rather than double-escaped; stripping one backslash before each
escaped character recovers the input exactly. -/
theorem claim_C9_escape_roundtrip (s : String) :
    escape_markdown s = escape_markdown_spec s
  ∧ unescapeMd (escape_markdown s).data = s.data := by
  constructor
  · exact escape_markdown_eq_spec s
  · rw [escape_markdown_eq_spec s]
    show unescapeMd (s.data.flatMap escCharSpec) = s.data
    exact unescapeMd_flatMap s.data

/-- C10: with exactly one token after `/qwen`, that token is the question —
even a purely numeric one — and the count stays at the default 100; a
leading count is honoured only when two tokens follow the command. -/
theorem claim_C10_qwen_single_token :
    (∀ (msgText cmd q : String),
        pySplit msgText (some 2) = [cmd, q] →
        qwenNumOf msgText = 100 ∧ qwenQuestionOf msgText = q)
  ∧ (∀ (msgText cmd d q : String),
        pySplit msgText (some 2) = [cmd, d, q] →
        pyIsDigitS d = true →
        ¬ (strToNat d ≤ 0 ∨ 500 < strToNat d) →
        qwenNumOf msgText = strToNat d ∧ qwenQuestionOf msgText = q) := by
  constructor
  · intro msgText cmd q hp
    constructor
    · unfold qwenNumOf qwenPartsOf
      rw [hp]
      rfl
    · unfold qwenQuestionOf qwenPartsOf
      rw [hp]
      rfl
  · intro msgText cmd d q hp hd hn
    constructor
    · unfold qwenNumOf qwenPartsOf
      rw [hp]
      unfold qwenNumMessages
      dsimp only
      rw [if_pos hd, if_neg hn]
    · unfold qwenQuestionOf qwenPartsOf
      rw [hp]
      unfold qwenQuestion
      dsimp only
      rw [if_pos hd]

/-- Witness for C10: `/qwen 42` asks the question `"42"` with the default
count, while `/qwen 5 hi` uses count 5 and question `"hi"`. -/
theorem claim_C10_qwen_single_token_witness :
    (qwenNumOf "/qwen 42" = 100 ∧ qwenQuestionOf "/qwen 42" = "42")
  ∧ (qwenNumOf "/qwen 5 hi" = 5 ∧ qwenQuestionOf "/qwen 5 hi" = "hi") :=
  ⟨claim_C10_qwen_single_token.1 "/qwen 42" "/qwen" "42" (by decide),
   by
     have h := claim_C10_qwen_single_token.2 "/qwen 5 hi" "/qwen" "5" "hi"
       (by decide) (by decide) (by decide)
     exact ⟨h.1.trans (by decide), h.2⟩⟩
